import Mathlib

/-!
Shallow embedding of the resumable document-reconstruction and pipeline
execution engine of the Smart-Cyber-Defense-Dashboard repository:

  * threat_graph_engine/ingestion.py   (chunk loader / document reconstructor)
  * threat_graph_engine/neo4j_persistor.py (retrying persistence sink)
  * KG_pipeline/mitre_stix_integrator.py   (MITRE enrichment stage)
  * threat_sources_manager.py          (checkpoint store + pipeline executor)

Pure functions become Lean functions; the stateful execution loop becomes an
explicit event-trace interpreter; fallible code returns Except.
-/

/-- Python str.strip of a string: drop whitespace from both ends. -/
def pyStrip (s : String) : String :=
  ⟨((s.data.dropWhile Char.isWhitespace).reverse.dropWhile Char.isWhitespace).reverse⟩

/-- Python str.lower (per-character lowering). -/
def pyLower (s : String) : String := ⟨s.data.map Char.toLower⟩

/-- Python str.upper (per-character uppering). -/
def pyUpper (s : String) : String := ⟨s.data.map Char.toUpper⟩

/-- ThreatEntity of KG_pipeline/schemas.py, restricted to the fields that the
pipeline executor, the MITRE enrichment and the Neo4j persistor read or write
(name, type, text, confidence, description, mitre_id, external_references).
Python float confidences never influence control flow; they are carried
opaquely and modelled as rationals. -/
structure ThreatEntity where
  name : String
  type : String
  text : Option String := none
  confidence : Option Rat := none
  description : Option String := none
  mitre_id : Option String := none
  external_references : Option (List String) := none
deriving DecidableEq

/-- ThreatRelationship of KG_pipeline/schemas.py, restricted likewise. -/
structure ThreatRelationship where
  source_name : String
  source_type : String
  target_name : String
  target_type : String
  relationship_type : String
  description : Option String := none
  confidence : Option Rat := none
deriving DecidableEq

/-! ## Document reconstructor (threat_graph_engine/ingestion.py) -/

/-- One chunk record of the chunked-JSON archive, after the int coercions of
ingestion.py lines 70-76. A chunk whose record_id or chunk_index fails to
coerce raises inside the per-chunk try block and is skipped before touching
the accumulator, so such records are outside this type. Absent metadata keys
default to None (chunk.get defaults). -/
structure Chunk where
  record_id : Int
  chunk_index : Int
  text : String
  source : Option String := none
  type : Option String := none
  indicator : Option String := none
  date : Option String := none
deriving DecidableEq

/-- ingestion.py line 12. -/
def MAX_CHUNK_TEXT_LENGTH : Nat := 2048

/-- ingestion.py line 13. -/
def MIN_TEXT_LENGTH : Nat := 10

/-- Data-quality checks of ingestion.py lines 79-86: a chunk is retained iff
its text is truthy with length at least MIN_TEXT_LENGTH, and at most
MAX_CHUNK_TEXT_LENGTH (length at least 10 already forces non-emptiness, so
the Python truthiness test adds nothing). -/
def chunkValid (c : Chunk) : Bool :=
  decide (MIN_TEXT_LENGTH ≤ c.text.length) && decide (c.text.length ≤ MAX_CHUNK_TEXT_LENGTH)

/-- Accumulator entry of records_map in load_and_reconstruct: metadata of the
first retained chunk of the record plus the retained (chunk_index, text)
pairs in read order (ingestion.py lines 49-56 and 88-102). -/
structure RecEntry where
  source : Option String
  type : Option String
  indicator : Option String
  date : Option String
  text_chunks : List (Int × String)
deriving DecidableEq

/-- Fresh records_map entry created by the first retained chunk of a record
(defaultdict creation plus the metadata assignment of lines 90-95). -/
def entryOfChunk (c : Chunk) : RecEntry :=
  ⟨c.source, c.type, c.indicator, c.date, [(c.chunk_index, c.text)]⟩

/-- records_map access plus append (ingestion.py lines 88-102). A Python dict
preserves insertion order, so records_map is an association list ordered by
first occurrence of each record_id; a chunk of an already-seen record is
appended to that record's text_chunks and the metadata set by the first chunk
is kept (inconsistent metadata only logs a warning). -/
def updateEntry (c : Chunk) : List (Int × RecEntry) → List (Int × RecEntry)
  | [] => [(c.record_id, entryOfChunk c)]
  | (r, e) :: rest =>
    if r = c.record_id then
      (r, { e with text_chunks := e.text_chunks ++ [(c.chunk_index, c.text)] }) :: rest
    else (r, e) :: updateEntry c rest

/-- The chunk-scanning loop of load_and_reconstruct (lines 66-107): filter by
the validity checks, then accumulate into records_map. -/
def buildRecordsMap (chunks : List Chunk) : List (Int × RecEntry) :=
  (chunks.filter chunkValid).foldl (fun m c => updateEntry c m) []

/-- Stable insertion of x into a list sorted by key: x goes after every
element whose key is less than or equal to its own. -/
def insertStable {α : Type} (key : α → Int) (x : α) : List α → List α
  | [] => [x]
  | y :: ys => if key y ≤ key x then y :: insertStable key x ys else x :: y :: ys

/-- Stable sort by an integer key, as insertion sort. Python's list.sort
(ingestion.py line 115, key lambda x: x[0]) is a stable sort; a stable sort's
output is uniquely determined (stableSortBy_sorted, filter_stableSortBy and
sorted_eq_of_filter_eq below), so this computes the same list. -/
def stableSortBy {α : Type} (key : α → Int) (l : List α) : List α :=
  l.foldl (fun acc x => insertStable key x acc) []

/-- Reconstructed document (ingestion.py lines 117-124). -/
structure Document where
  record_id : Int
  source : Option String := none
  type : Option String := none
  indicator : Option String := none
  date : Option String := none
  text : String
deriving DecidableEq

/-- Per-record reconstruction (lines 113-125): sort the retained chunks of
one record ascending by chunk_index (stable sort), join the texts with a
single space, strip the result. -/
def reconstructEntry (r : Int) (e : RecEntry) : Document :=
  { record_id := r, source := e.source, type := e.type, indicator := e.indicator,
    date := e.date,
    text := pyStrip (String.intercalate " "
      ((stableSortBy (fun p => p.1) e.text_chunks).map (fun p => p.2))) }

/-- load_and_reconstruct of threat_graph_engine/ingestion.py (and the body of
ingest_data): validate and accumulate the chunks, then emit one Document per
record_id in first-seen order. -/
def load_and_reconstruct (chunks : List Chunk) : List Document :=
  (buildRecordsMap chunks).map (fun p => reconstructEntry p.1 p.2)

/-- Append an id to an ordered set of keys if it is not present yet. -/
def insertFirst (acc : List Int) (r : Int) : List Int :=
  if r ∈ acc then acc else acc ++ [r]

/-- Distinct record ids of a chunk list, ordered by first occurrence: the key
order of records_map. -/
def chunkKeys (chunks : List Chunk) : List Int :=
  (chunks.map (fun c => c.record_id)).foldl insertFirst []

/-- Entry assembled in one step from the full read-order list of one record's
retained chunks: metadata from the first chunk, all (chunk_index, text) pairs
in read order. buildRecordsMap is proved below to agree with this per key. -/
def entryFor : List Chunk → RecEntry
  | [] => ⟨none, none, none, none, []⟩
  | c :: cs => ⟨c.source, c.type, c.indicator, c.date,
      (c :: cs).map (fun c' => (c'.chunk_index, c'.text))⟩

-- Equality of Except values over decidable components is decidable (used to
-- evaluate embedded functions on concrete inputs).
deriving instance DecidableEq for Except

/-! ## Errors crossing embedded function boundaries -/

/-- Exception values of the embedded code. Only the neo4j TransientError is
caught by the retry loop; fileNotFoundError and valueError reproduce the
raise statements in fetch_mitre_data and the persistor guards; error covers
any other exception a stage may raise. -/
inductive PErr where
  | transientError (msg : String)
  | fileNotFoundError (msg : String)
  | valueError (msg : String)
  | error (msg : String)
deriving DecidableEq

/-- The except TransientError clause of _run_with_retry catches exactly
these. -/
def PErr.isTransient : PErr → Bool
  | .transientError _ => true
  | _ => false

/-! ## MITRE enrichment stage (KG_pipeline/mitre_stix_integrator.py) -/

/-- One element of a STIX object's external_references list, restricted to the
keys find_mitre_info reads; absent keys are none. -/
structure ExtRef where
  source_name : Option String := none
  external_id : Option String := none
  url : Option String := none
deriving DecidableEq

/-- One STIX object of the MITRE ATT&CK data, restricted to the keys
find_mitre_info reads. -/
structure MitreObj where
  external_references : List ExtRef := []
  name : Option String := none
  description : Option String := none
  type : Option String := none
deriving DecidableEq

/-- Dict returned by find_mitre_info on a match (lines 74-80 and 83-89). -/
structure MitreInfo where
  mitre_id : String
  description : String
  external_references : List String
  type : String
  name : String
deriving DecidableEq

/-- Lines 67-72: scan external_references for the first entry whose
source_name is "mitre-attack" and take its external_id (possibly absent). -/
def extRefsMitreId (refs : List ExtRef) : Option String :=
  match refs.find? (fun ref => decide (ref.source_name = some "mitre-attack")) with
  | some ref => ref.external_id
  | none => none

/-- The url list of the returned dict: urls of the external references,
keeping only truthy (present and non-empty) values. -/
def extRefsUrls (refs : List ExtRef) : List String :=
  refs.filterMap (fun ref =>
    match ref.url with
    | some u => if u = "" then none else some u
    | none => none)

/-- Per-object match of find_mitre_info (lines 65-89): match by mitre id (a
truthy external_id whose upper-casing equals the upper-cased lookup name),
else by object name (case insensitive); no match yields none. -/
def matchMitreObj (name_upper : String) (obj : MitreObj) : Option MitreInfo :=
  let mitre_id := extRefsMitreId obj.external_references
  let idMatches : Bool :=
    match mitre_id with
    | some mid => decide (mid ≠ "") && decide (pyUpper mid = name_upper)
    | none => false
  if idMatches then
    some ⟨mitre_id.getD "", obj.description.getD "", extRefsUrls obj.external_references,
          obj.type.getD "", obj.name.getD ""⟩
  else if pyUpper (obj.name.getD "") = name_upper then
    some ⟨mitre_id.getD "", obj.description.getD "", extRefsUrls obj.external_references,
          obj.type.getD "", obj.name.getD ""⟩
  else none

/-- find_mitre_info (lines 56-90): the first matching STIX object wins. The
defensive guard of line 61 (falsy mitre_data or missing objects key) returns
none for every lookup, which is indistinguishable downstream from an empty
objects list; such cache contents are collapsed accordingly in
fetch_mitre_data. -/
def find_mitre_info (name : String) (mitre_data : List MitreObj) : Option MitreInfo :=
  mitre_data.findSome? (matchMitreObj (pyUpper name))

/-- fetch_mitre_data (lines 41-54) with the local cache file content as an
explicit argument: some objs models a cache file that loaded as a truthy
dict (objs being its objects array, empty when absent); none models a
missing, unreadable or falsy cache file. With no usable cache the function
raises FileNotFoundError (line 54) instead of degrading. The in-memory TTL
cache only memoizes this result and is invisible to the embedding. -/
def fetch_mitre_data (local_cache : Option (List MitreObj)) :
    Except PErr (List MitreObj) :=
  match local_cache with
  | some objs => Except.ok objs
  | none => Except.error (PErr.fileNotFoundError
      "No local MITRE ATT&CK cache found. Cannot proceed without MITRE data.")

/-- enrich_entities_with_mitre_stix (lines 92-113): fetch the MITRE data
first (line 98, with no try around it, so its FileNotFoundError propagates
to the caller), then enrich every entity of type ttp, technique or tactic;
other entities pass through unchanged. On a match the entity's mitre_id,
description and external_references are overwritten from the match. -/
def enrich_entities_with_mitre_stix (local_cache : Option (List MitreObj))
    (entities : List ThreatEntity) : Except PErr (List ThreatEntity) :=
  match fetch_mitre_data local_cache with
  | Except.error e => Except.error e
  | Except.ok mitre_data => Except.ok (entities.map (fun entity =>
      if pyLower entity.type ∈ (["ttp", "technique", "tactic"] : List String) then
        match find_mitre_info entity.name mitre_data with
        | some info =>
          { entity with mitre_id := some info.mitre_id,
                        description := some info.description,
                        external_references := some info.external_references }
        | none => entity
      else entity))

/-! ## Pipeline executor (threat_sources_manager.py) -/

/-- A document as consumed by run_pipeline: doc.get("record_id") may be
absent (none) and doc.get("text", "") defaults to the empty string. Documents
produced by load_and_reconstruct always carry a record_id. -/
structure PipeDoc where
  record_id : Option Int
  text : String
deriving DecidableEq

/-- View of a reconstructed Document as pipeline input. -/
def Document.toPipeDoc (d : Document) : PipeDoc := ⟨some d.record_id, d.text⟩

/-- The three stage interfaces consumed by process_document
(perform_hybrid_ner, enrich_entities_with_mitre_stix,
extract_relationships_llm) as fallible functions; an error value models the
stage raising. -/
structure Stages where
  ner : String → Except PErr (List ThreatEntity)
  enrich : List ThreatEntity → Except PErr (List ThreatEntity)
  relations : String → List ThreatEntity → Except PErr (List ThreatRelationship)

/-- Observable events of one pipeline run, tagged with doc.get("record_id")
where the source logs it. -/
inductive Ev where
  | processDoc (rid : Option Int)
  | nerCall (rid : Option Int)
  | enrichCall (rid : Option Int)
  | relCall (rid : Option Int)
  | saveEntityAttempt (e : ThreatEntity)
  | saveRelAttempt (r : ThreatRelationship)
  | checkpointAdd (rid : Int)
  | checkpointSave (ids : List Int)
deriving DecidableEq

/-- process_document (threat_sources_manager.py lines 61-90): empty or
whitespace-only text returns ([], []) before any stage call (lines 67-71);
otherwise NER, enrichment and relationship extraction run in order and any
exception among them is caught by the except of lines 87-90, turning the
document into ([], []) (counted as malformed). Returns the result together
with the event trace of the call. -/
def process_document (st : Stages) (doc : PipeDoc) :
    (List ThreatEntity × List ThreatRelationship) × List Ev :=
  if pyStrip doc.text = "" then
    (([], []), [Ev.processDoc doc.record_id])
  else
    match st.ner doc.text with
    | Except.error _ => (([], []), [Ev.processDoc doc.record_id, Ev.nerCall doc.record_id])
    | Except.ok entities =>
      match st.enrich entities with
      | Except.error _ => (([], []),
          [Ev.processDoc doc.record_id, Ev.nerCall doc.record_id, Ev.enrichCall doc.record_id])
      | Except.ok enriched =>
        match st.relations doc.text enriched with
        | Except.error _ => (([], []),
            [Ev.processDoc doc.record_id, Ev.nerCall doc.record_id,
             Ev.enrichCall doc.record_id, Ev.relCall doc.record_id])
        | Except.ok relationships => ((enriched, relationships),
            [Ev.processDoc doc.record_id, Ev.nerCall doc.record_id,
             Ev.enrichCall doc.record_id, Ev.relCall doc.record_id])

/-- ingest_to_neo4j (lines 92-110) with dry_run false: one persistence
attempt per entity, then one per relationship; a per-item exception is
logged and swallowed, so the attempts are the observable behavior. -/
def ingestEvents (entities : List ThreatEntity)
    (relationships : List ThreatRelationship) : List Ev :=
  entities.map Ev.saveEntityAttempt ++ relationships.map Ev.saveRelAttempt

/-- The checkpointed main loop of run_pipeline (lines 153-167) over the
in-memory processed_ids: a document without a record_id is skipped; a
document whose record_id is already in processed_ids is skipped; otherwise
it is processed, its results ingested, its record_id added to processed_ids
and the checkpoint saved, in that order. Nothing in the loop body raises
(process_document and ingest_to_neo4j swallow their exceptions), so the
except of lines 166-167 is dead in this model. processed_ids is a Python
set; it is modelled as a list kept duplicate-free by the membership guard.
Returns the final processed_ids together with the trace. -/
def mainLoop (st : Stages) : List PipeDoc → List Int → List Int × List Ev
  | [], processed => (processed, [])
  | doc :: docs, processed =>
    match doc.record_id with
    | none => mainLoop st docs processed
    | some rid =>
      if rid ∈ processed then mainLoop st docs processed
      else
        ((mainLoop st docs (processed ++ [rid])).1,
         (process_document st doc).2 ++
           ingestEvents (process_document st doc).1.1 (process_document st doc).1.2 ++
           [Ev.checkpointAdd rid, Ev.checkpointSave (processed ++ [rid])] ++
           (mainLoop st docs (processed ++ [rid])).2)

/-- The timing-estimation pass of run_pipeline (lines 140-150): the first
min(3, total) documents are run through process_document, results discarded,
before the checkpointed loop starts, regardless of the checkpoint. -/
def estimationTrace (st : Stages) (documents : List PipeDoc) : List Ev :=
  ((documents.take (min 3 documents.length)).map
    (fun d => (process_document st d).2)).flatten

/-- run_pipeline (lines 112-173), event-trace view. The call
random.sample(documents, min(3, len(documents))) of lines 122-123 replaces
the reconstructed document list by a random sample of at most 3 of its
elements; that sample is taken as an argument so theorems can quantify over
every outcome of the randomness. checkpoint is the processed_records.json
content returned by load_checkpoint. An empty document list returns before
the checkpoint is even loaded (lines 128-130). -/
def run_pipeline (st : Stages) (sample : List PipeDoc)
    (checkpoint : List Int) : List Ev :=
  if sample.length = 0 then []
  else estimationTrace st sample ++ (mainLoop st sample checkpoint).2

/-! ## Checkpoint store (threat_sources_manager.py lines 29 and 48-59) -/

/-- File-system operations save_checkpoint can perform. -/
inductive FileOp where
  | openWrite (path : String)
  | writeContent (path : String) (content : String)
  | rename (src : String) (dst : String)
deriving DecidableEq

/-- threat_sources_manager.py line 29. -/
def CHECKPOINT_FILE : String := "processed_records.json"

/-- json.dump of a list of ints with the default separators. -/
def jsonIntList (ids : List Int) : String :=
  "[" ++ String.intercalate ", " (ids.map toString) ++ "]"

/-- save_checkpoint (lines 56-59) as the sequence of file operations it
performs: open the checkpoint file itself in write mode (truncating it in
place) and write the serialized id list into it. -/
def save_checkpoint (ids : List Int) : List FileOp :=
  [FileOp.openWrite CHECKPOINT_FILE,
   FileOp.writeContent CHECKPOINT_FILE (jsonIntList ids)]

/-- Recognizer for rename operations. -/
def FileOp.isRename : FileOp → Bool
  | .rename _ _ => true
  | _ => false

/-- Recognizer for content writes. -/
def FileOp.isWrite : FileOp → Bool
  | .writeContent _ _ => true
  | _ => false

/-! ## Retrying persistence sink (threat_graph_engine/neo4j_persistor.py) -/

/-- Stored node with label ThreatEntity and its properties. A Cypher SET with
a null parameter removes the property, so every non-key property is
optional; name is the one property every node is created with. -/
structure NodeRec where
  name : String
  entity_type : Option String := none
  source_text : Option String := none
  confidence : Option Rat := none
  mitre_id : Option String := none
  description : Option String := none
  external_references : Option (List String) := none
  run_id : Option String := none
deriving DecidableEq

/-- Stored RELATION edge; endpoints are node indices into GraphState.nodes. -/
structure RelRec where
  src : Nat
  dst : Nat
  rel_type : String
  description : Option String := none
  confidence : Option Rat := none
  run_id : Option String := none
deriving DecidableEq

/-- The graph store the persistor writes into. -/
structure GraphState where
  nodes : List NodeRec := []
  rels : List RelRec := []
deriving DecidableEq

/-- A store with no data. -/
def emptyStore : GraphState := {}

/-- The SET clause of save_entity (lines 38-44): overwrite every non-key
property from the entity payload (name, the merge key, is untouched). The
Python expression entity.external_references or [] maps a missing list to
the empty one. -/
def setEntityProps (run_id : String) (e : ThreatEntity) (n : NodeRec) : NodeRec :=
  { n with entity_type := some e.type,
           source_text := e.text,
           confidence := e.confidence,
           mitre_id := e.mitre_id,
           description := e.description,
           external_references := some (e.external_references.getD []),
           run_id := some run_id }

/-- MERGE (e:ThreatEntity {name: $name}) followed by SET (save_entity lines
36-58): the merge key is the name alone. If any node carries the name, SET
applies to every matched node; otherwise a node holding just the name is
created and then SET. -/
def applyEntityMerge (run_id : String) (g : GraphState) (e : ThreatEntity) :
    GraphState :=
  if g.nodes.any (fun n => decide (n.name = e.name)) then
    { g with nodes := (g.nodes.map
        (fun n => if n.name = e.name then setEntityProps run_id e n else n)) }
  else
    { g with nodes := g.nodes ++ [setEntityProps run_id e { name := e.name }] }

/-- save_entity (lines 32-58), state effect of a successful query run: the
guard of lines 33-34 raises ValueError on a falsy name or type before the
query is built. -/
def save_entity (run_id : String) (g : GraphState) (e : ThreatEntity) :
    Except PErr GraphState :=
  if e.name = "" ∨ e.type = "" then
    Except.error (PErr.valueError "Entity must have a valid name and type")
  else Except.ok (applyEntityMerge run_id g e)

/-- Endpoint MERGE of save_relationship (lines 65-66) on
{name, entity_type}: bind the matching node, or create one carrying exactly
these two properties. When several nodes match, this embedding binds the
first one. -/
def mergeEndpoint (nodes : List NodeRec) (name : String) (etype : String) :
    List NodeRec × Nat :=
  match nodes.findIdx? (fun n => decide (n.name = name ∧ n.entity_type = some etype)) with
  | some i => (nodes, i)
  | none => (nodes ++ [{ name := name, entity_type := some etype }], nodes.length)

/-- The SET clause of save_relationship (lines 68-70); the Python
or-expressions default description to "" and confidence to 0. -/
def setRelProps (run_id : String) (r : ThreatRelationship) (rr : RelRec) : RelRec :=
  { rr with description := some (r.description.getD ""),
            confidence := some (r.confidence.getD 0),
            run_id := some run_id }

/-- save_relationship (lines 64-84), state effect of a successful query run:
merge both endpoints on {name, entity_type}, merge the RELATION edge on
{type} between them, then SET its properties. -/
def applyRelationshipMerge (run_id : String) (g : GraphState)
    (r : ThreatRelationship) : GraphState :=
  let m1 := mergeEndpoint g.nodes r.source_name r.source_type
  let m2 := mergeEndpoint m1.1 r.target_name r.target_type
  let hit := fun rr : RelRec =>
    decide (rr.src = m1.2 ∧ rr.dst = m2.2 ∧ rr.rel_type = r.relationship_type)
  let rels' :=
    if g.rels.any hit then
      g.rels.map (fun rr => if hit rr then setRelProps run_id r rr else rr)
    else g.rels ++ [setRelProps run_id r
      { src := m1.2, dst := m2.2, rel_type := r.relationship_type }]
  { nodes := m2.1, rels := rels' }

/-- save_relationship (lines 60-84): the guard of lines 61-62 raises
ValueError on a falsy source, target or type before the query is built. -/
def save_relationship (run_id : String) (g : GraphState)
    (r : ThreatRelationship) : Except PErr GraphState :=
  if r.source_name = "" ∨ r.target_name = "" ∨ r.relationship_type = "" then
    Except.error (PErr.valueError "Relationship must have source, target, and type")
  else Except.ok (applyRelationshipMerge run_id g r)

/-- Loop body of _run_with_retry (lines 15-24), with the outcome of each
func() call given as a function of the current retry counter and the
remaining loop iterations as structural fuel (fuel = max_retries - retries
throughout). When the fuel runs out the while loop falls through and Python
returns None. Only TransientError is caught; it is re-raised when
retries reaches max_retries. The second component counts func invocations. -/
def retryGo {α : Type} (f : Nat → Except PErr α) (max_retries : Nat) :
    Nat → Nat → Except PErr (Option α) × Nat
  | _, 0 => (Except.ok none, 0)
  | retries, fuel + 1 =>
    match f retries with
    | Except.ok a => (Except.ok (some a), 1)
    | Except.error e =>
      if e.isTransient then
        if retries + 1 = max_retries then (Except.error e, 1)
        else
          let r := retryGo f max_retries (retries + 1) fuel
          (r.1, r.2 + 1)
      else (Except.error e, 1)

/-- _run_with_retry (lines 15-24): run the loop from retries = 0. The source
calls it with its default max_retries = 3. -/
def run_with_retry {α : Type} (f : Nat → Except PErr α) (max_retries : Nat) :
    Except PErr (Option α) × Nat :=
  retryGo f max_retries 0 max_retries

/-- save_entity as seen by its caller, with each session.run attempt
abstracted as a function of the attempt index: the ValueError guard fires
before _run_with_retry is entered (so the query runs zero times), otherwise
run_query runs under _run_with_retry with max_retries 3. -/
def save_entity_attempts (e : ThreatEntity) (runQuery : Nat → Except PErr Unit) :
    Except PErr (Option Unit) × Nat :=
  if e.name = "" ∨ e.type = "" then
    (Except.error (PErr.valueError "Entity must have a valid name and type"), 0)
  else run_with_retry runQuery 3

/-- Recognizer for checkpointAdd events. -/
def Ev.isCheckpointAdd : Ev → Bool
  | .checkpointAdd _ => true
  | _ => false

/-- Recognizer for checkpointSave events. -/
def Ev.isCheckpointSave : Ev → Bool
  | .checkpointSave _ => true
  | _ => false

/-- Recognizer for persistence-attempt events. -/
def Ev.isPersistAttempt : Ev → Bool
  | .saveEntityAttempt _ => true
  | .saveRelAttempt _ => true
  | _ => false

/-! ## Concrete inputs used by counterexamples and witnesses -/

/-- Benign stage implementations: NER finds nothing, enrichment and relation
extraction succeed trivially. -/
def stagesOk : Stages :=
  { ner := fun _ => Except.ok [],
    enrich := fun es => Except.ok es,
    relations := fun _ _ => Except.ok [] }

/-- Stage implementations that always raise. -/
def stagesDown : Stages :=
  { ner := fun _ => Except.error (PErr.error "stage raised"),
    enrich := fun _ => Except.error (PErr.error "stage raised"),
    relations := fun _ _ => Except.error (PErr.error "stage raised") }

/-- A TTP entity eligible for MITRE enrichment. -/
def entityTtp : ThreatEntity := { name := "t1059", type := "ttp" }

/-- Stages whose NER finds entityTtp and whose enrichment is the embedded
MITRE stage running with no usable local cache. -/
def stagesMitreDown : Stages :=
  { ner := fun _ => Except.ok [entityTtp],
    enrich := enrich_entities_with_mitre_stix none,
    relations := fun _ _ => Except.ok [] }

/-- Five reconstructed documents with record_ids 1..5 and non-blank texts
(the resumability scenario of the spec). -/
def fiveDocs : List PipeDoc :=
  [⟨some 1, "apt29 spearphishing wave"⟩,
   ⟨some 2, "emotet loader campaign"⟩,
   ⟨some 3, "lazarus implant update"⟩,
   ⟨some 4, "cobalt strike beacon config"⟩,
   ⟨some 5, "mimikatz credential dump"⟩]

/-- The first three documents of fiveDocs (the ones already committed in the
resumability scenario). -/
def firstThreeDocs : List PipeDoc := fiveDocs.take 3

/-- The chunks of the spec's ordering example: positions [2,0,1] read in that
file order, with one-character texts ["c","a","b"]. -/
def chunksShort : List Chunk :=
  [{ record_id := 1, chunk_index := 2, text := "c" },
   { record_id := 1, chunk_index := 0, text := "a" },
   { record_id := 1, chunk_index := 1, text := "b" }]

/-- The ordering example with texts long enough to pass the minimum-length
validation: positions [2,0,1] with ten-character texts. -/
def chunksTen : List Chunk :=
  [{ record_id := 1, chunk_index := 2, text := "cccccccccc" },
   { record_id := 1, chunk_index := 0, text := "aaaaaaaaaa" },
   { record_id := 1, chunk_index := 1, text := "bbbbbbbbbb" }]

/-- A valid chunk of document 1. -/
def chunkDoc1 : Chunk := { record_id := 1, chunk_index := 0, text := "aaaaaaaaaa" }

/-- A valid chunk of document 2. -/
def chunkDoc2 : Chunk := { record_id := 2, chunk_index := 0, text := "bbbbbbbbbb" }

/-- Three chunks of one document, two of them sharing position 0, read after
the position-5 chunk. -/
def samePosA : List Chunk :=
  [{ record_id := 1, chunk_index := 5, text := "bbbbbbbbbb" },
   { record_id := 1, chunk_index := 0, text := "aaaaaaaaaa" },
   { record_id := 1, chunk_index := 0, text := "cccccccccc" }]

/-- The same three chunks with the position-5 chunk read last; the relative
order of the two position-0 chunks is unchanged. -/
def samePosB : List Chunk :=
  [{ record_id := 1, chunk_index := 0, text := "aaaaaaaaaa" },
   { record_id := 1, chunk_index := 0, text := "cccccccccc" },
   { record_id := 1, chunk_index := 5, text := "bbbbbbbbbb" }]

/-- Read-order group of the chunks sharing c's (record_id, chunk_index) key
inside l. -/
def sameKeyGroup (c : Chunk) (l : List Chunk) : List Chunk :=
  l.filter (fun c' => decide (c'.record_id = c.record_id ∧ c'.chunk_index = c.chunk_index))

/-- Entity upserted first in the C8 scenario: natural key (cobalt strike, tool). -/
def entityTool : ThreatEntity := { name := "cobalt strike", type := "tool" }

/-- Entity upserted second: same name, different type (cobalt strike, malware). -/
def entityMalware : ThreatEntity := { name := "cobalt strike", type := "malware" }

/-! ## Theorems -/

/-- C2 counterexample: with a single fresh document and an empty checkpoint,
one run of run_pipeline invokes process_document on that document twice —
once in the timing-estimation pass of lines 140-150 and once in the
checkpointed loop — so a document is driven through the stage chain twice in
the same run. -/
theorem C2_counterexample :
    (run_pipeline stagesOk [⟨some 1, "apt29 spearphishing wave"⟩] []).countP
      (fun e => decide (e = Ev.processDoc (some 1))) = 2 := by decide

/-- C3: the claim says the MITRE-enrichment stage never fails its caller and
that unavailable MITRE reference data degrades to returning the unenriched
entity list. The code instead raises: with no usable local cache,
enrich_entities_with_mitre_stix propagates the FileNotFoundError of
fetch_mitre_data to its caller, and a document whose NER produced an entity
list comes out of process_document as ([], []) (counted as malformed) — the
extracted entities are lost rather than passed through unenriched. -/
theorem C3_enrich_raises_on_missing_cache :
    enrich_entities_with_mitre_stix none [entityTtp] =
      Except.error (PErr.fileNotFoundError
        "No local MITRE ATT&CK cache found. Cannot proceed without MITRE data.") ∧
    stagesMitreDown.ner "powershell launched by dropper" = Except.ok [entityTtp] ∧
    (process_document stagesMitreDown ⟨some 9, "powershell launched by dropper"⟩).1 =
      ([], []) := by decide

/-- C4 counterexample: the claim says every checkpoint save atomically
replaces the file content with write-temp-then-rename semantics; the
operation trace of save_checkpoint on the id set {1} contains no rename at
all, and its only content write goes directly to the checkpoint file
itself. -/
theorem C4_counterexample :
    (save_checkpoint [1]).countP FileOp.isRename = 0 ∧
    (save_checkpoint [1]).filter FileOp.isWrite =
      [FileOp.writeContent CHECKPOINT_FILE (jsonIntList [1])] := by decide

/-- C4 amended: save_checkpoint serializes the id set and rewrites
processed_records.json in place — an open-for-write that truncates the file,
followed by a single content write to that same path, with no temporary file
and no rename, for every id set. -/
theorem C4_amended (ids : List Int) :
    save_checkpoint ids =
      [FileOp.openWrite CHECKPOINT_FILE,
       FileOp.writeContent CHECKPOINT_FILE (jsonIntList ids)] ∧
    (save_checkpoint ids).countP FileOp.isRename = 0 := ⟨rfl, rfl⟩

/-- C6 counterexample: the chunks of the spec's ordering example all have
one-character texts, so the minimum-length validation (MIN_TEXT_LENGTH = 10)
skips every one of them and reconstruction yields no document at all — in
particular no document with text "a b c". -/
theorem C6_counterexample :
    load_and_reconstruct chunksShort = [] ∧
    "a b c" ∉ (load_and_reconstruct chunksShort).map Document.text := by decide

/-- C6 amended: retained chunks — those whose text length lies between
MIN_TEXT_LENGTH and MAX_CHUNK_TEXT_LENGTH — are sorted ascending by position
and their texts joined with a single space; the ordering example only holds
for texts that pass validation: positions [2,0,1] with ten-character texts
ccc..., aaa..., bbb... reconstruct to "aaaaaaaaaa bbbbbbbbbb cccccccccc",
while the original one-character texts are all skipped. -/
theorem C6_amended :
    chunksTen.all chunkValid = true ∧
    (load_and_reconstruct chunksTen).map Document.text =
      ["aaaaaaaaaa bbbbbbbbbb cccccccccc"] ∧
    (load_and_reconstruct chunksTen).map Document.record_id = [1] ∧
    chunksShort.all (fun c => !chunkValid c) = true := by decide

/-- C8 counterexample: the claim says the unique key for entity upserts is
name+type; save_entity's MERGE key is the name alone, so two upserts sharing
a name but differing in type — two distinct claimed natural keys — leave a
single stored record whose entity_type is the later value, where merging by
name+type would have left two records. -/
theorem C8_counterexample :
    entityTool.name = entityMalware.name ∧
    entityTool.type ≠ entityMalware.type ∧
    (applyEntityMerge "run1" (applyEntityMerge "run1" emptyStore entityTool)
      entityMalware).nodes.length = 1 ∧
    (applyEntityMerge "run1" (applyEntityMerge "run1" emptyStore entityTool)
      entityMalware).nodes.map NodeRec.entity_type = [some "malware"] := by decide

/-- The event trace of one process_document call has one of four literal
shapes, always starting with its processDoc event; stage-call events appear
exactly as far as the stages were invoked. -/
theorem process_document_trace_cases (st : Stages) (doc : PipeDoc) :
    (process_document st doc).2 = [Ev.processDoc doc.record_id] ∨
    (process_document st doc).2 =
      [Ev.processDoc doc.record_id, Ev.nerCall doc.record_id] ∨
    (process_document st doc).2 =
      [Ev.processDoc doc.record_id, Ev.nerCall doc.record_id,
       Ev.enrichCall doc.record_id] ∨
    (process_document st doc).2 =
      [Ev.processDoc doc.record_id, Ev.nerCall doc.record_id,
       Ev.enrichCall doc.record_id, Ev.relCall doc.record_id] := by
  unfold process_document
  split
  · left; rfl
  · split
    · right; left; rfl
    · split
      · right; right; left; rfl
      · split
        · right; right; right; rfl
        · right; right; right; rfl

/-- One process_document call emits exactly one processDoc event, tagged with
the document's record_id. -/
theorem process_document_countP_processDoc (st : Stages) (doc : PipeDoc) (x : Option Int) :
    (process_document st doc).2.countP (fun e => decide (e = Ev.processDoc x)) =
      if doc.record_id = x then 1 else 0 := by
  rcases process_document_trace_cases st doc with h | h | h | h <;>
    rw [h] <;> by_cases hx : doc.record_id = x <;>
      simp [hx, List.countP_cons]

/-- A predicate false on every stage-side event counts zero over a
process_document trace. -/
theorem process_document_countP_zero (st : Stages) (doc : PipeDoc) (p : Ev → Bool)
    (h1 : ∀ x, p (Ev.processDoc x) = false) (h2 : ∀ x, p (Ev.nerCall x) = false)
    (h3 : ∀ x, p (Ev.enrichCall x) = false) (h4 : ∀ x, p (Ev.relCall x) = false) :
    (process_document st doc).2.countP p = 0 := by
  rcases process_document_trace_cases st doc with h | h | h | h <;>
    simp [h, List.countP_cons, h1, h2, h3, h4]

/-- A predicate false on every persistence-attempt event counts zero over
ingest_to_neo4j's trace. -/
theorem ingestEvents_countP_zero (es : List ThreatEntity) (rs : List ThreatRelationship)
    (p : Ev → Bool) (h1 : ∀ e, p (Ev.saveEntityAttempt e) = false)
    (h2 : ∀ r, p (Ev.saveRelAttempt r) = false) :
    (ingestEvents es rs).countP p = 0 := by
  simp only [ingestEvents, List.countP_append, List.countP_map]
  rw [List.countP_eq_zero.mpr (by intro a _; simp [Function.comp, h1]),
      List.countP_eq_zero.mpr (by intro a _; simp [Function.comp, h2])]

/-- In the checkpointed main loop, a record id not in processed_ids is
driven through process_document at most once, and a record id already in
processed_ids never is: the id is added to processed_ids in the same
iteration that processes it. -/
theorem mainLoop_countP_processDoc_le (st : Stages) (ds : List PipeDoc)
    (P : List Int) (r : Int) :
    (mainLoop st ds P).2.countP (fun e => decide (e = Ev.processDoc (some r))) ≤
      (if r ∈ P then 0 else 1) := by
  induction ds generalizing P with
  | nil => simp [mainLoop]
  | cons doc ds ih =>
    cases hd : doc.record_id with
    | none =>
      refine le_trans ?_ (le_refl _)
      simpa [mainLoop, hd] using ih P
    | some rid =>
      by_cases hm : rid ∈ P
      · simpa [mainLoop, hd, hm] using ih P
      · simp only [mainLoop, hd, if_neg hm]
        rw [List.countP_append, List.countP_append, List.countP_append]
        rw [process_document_countP_processDoc]
        rw [ingestEvents_countP_zero _ _ _ (by intro e; simp) (by intro e; simp)]
        have hadd : ([Ev.checkpointAdd rid,
            Ev.checkpointSave (P ++ [rid])].countP
              (fun e => decide (e = Ev.processDoc (some r)))) = 0 := by
          simp [List.countP_cons]
        rw [hadd]
        by_cases hrr : rid = r
        · subst hrr
          have h2 := ih (P ++ [rid])
          rw [if_pos (by simp : rid ∈ P ++ [rid])] at h2
          rw [if_neg hm]
          have hpd1 : (if doc.record_id = some rid then 1 else 0) = 1 := by simp [hd]
          rw [hpd1]
          omega
        · have hpd : (if doc.record_id = some r then 1 else 0) = 0 := by
            simp [hd, hrr]
          rw [hpd]
          have h2 := ih (P ++ [rid])
          have hne : ¬ r = rid := fun h => hrr h.symm
          have hiff : (r ∈ P ++ [rid]) ↔ (r ∈ P) := by
            simp [List.mem_append, hne]
          simp only [hiff] at h2
          omega

/-- In the checkpointed main loop, a record id is committed (checkpointAdd)
at most once, and never if it is already in processed_ids. -/
theorem mainLoop_countP_checkpointAdd_le (st : Stages) (ds : List PipeDoc)
    (P : List Int) (r : Int) :
    (mainLoop st ds P).2.countP (fun e => decide (e = Ev.checkpointAdd r)) ≤
      (if r ∈ P then 0 else 1) := by
  induction ds generalizing P with
  | nil => simp [mainLoop]
  | cons doc ds ih =>
    cases hd : doc.record_id with
    | none => simpa [mainLoop, hd] using ih P
    | some rid =>
      by_cases hm : rid ∈ P
      · simpa [mainLoop, hd, hm] using ih P
      · simp only [mainLoop, hd, if_neg hm]
        rw [List.countP_append, List.countP_append, List.countP_append]
        rw [process_document_countP_zero _ _ _ (by intro x; simp) (by intro x; simp)
          (by intro x; simp) (by intro x; simp)]
        rw [ingestEvents_countP_zero _ _ _ (by intro e; simp) (by intro e; simp)]
        have hadd : ([Ev.checkpointAdd rid,
            Ev.checkpointSave (P ++ [rid])].countP
              (fun e => decide (e = Ev.checkpointAdd r))) =
            (if rid = r then 1 else 0) := by
          by_cases hrr : rid = r <;> simp [List.countP_cons, hrr]
        rw [hadd]
        by_cases hrr : rid = r
        · subst hrr
          have h2 := ih (P ++ [rid])
          rw [if_pos (by simp : rid ∈ P ++ [rid])] at h2
          rw [if_neg hm, if_pos rfl]
          omega
        · rw [if_neg hrr]
          have h2 := ih (P ++ [rid])
          have hne : ¬ r = rid := fun h => hrr h.symm
          have hiff : (r ∈ P ++ [rid]) ↔ (r ∈ P) := by
            simp [List.mem_append, hne]
          simp only [hiff] at h2
          omega

/-- C2 amended: within a single run, the checkpointed main processing loop
drives each record id through the stage chain at most once and commits it at
most once; the exactly-once claim fails only because the timing-estimation
pass of lines 140-150 additionally invokes process_document on the first
min(3, n) documents, so those documents go through the stage chain twice in
one run (C2_counterexample). -/
theorem C2_amended (st : Stages) (ds : List PipeDoc) (P : List Int) (r : Int) :
    (mainLoop st ds P).2.countP (fun e => decide (e = Ev.processDoc (some r))) ≤ 1 ∧
    (mainLoop st ds P).2.countP (fun e => decide (e = Ev.checkpointAdd r)) ≤ 1 := by
  constructor
  · refine le_trans (mainLoop_countP_processDoc_le st ds P r) ?_
    split <;> omega
  · refine le_trans (mainLoop_countP_checkpointAdd_le st ds P r) ?_
    split <;> omega

/-- The in-memory processed_ids only grows along the main loop. -/
theorem mainLoop_processed_mono (st : Stages) (ds : List PipeDoc) (P : List Int) :
    P ⊆ (mainLoop st ds P).1 := by
  induction ds generalizing P with
  | nil => simp [mainLoop]
  | cons doc ds ih =>
    cases hd : doc.record_id with
    | none => simpa [mainLoop, hd] using ih P
    | some rid =>
      by_cases hm : rid ∈ P
      · simpa [mainLoop, hd, hm] using ih P
      · simp only [mainLoop, hd, if_neg hm]
        exact (List.subset_append_left P [rid]).trans (ih (P ++ [rid]))

/-- C5: for a document that reaches Committed (its record_id r is fresh), the
loop-body trace is exactly the stage events, then the per-item persistence
attempts for its entities and relationships, then the checkpointAdd of r,
then one checkpointSave flushing processed_ids with r appended — in that
order, before any event of the next document; and globally every trace of
the main loop has exactly as many checkpoint saves as commits (one save per
committed document, never batched). -/
theorem C5_persist_before_checkpoint (st : Stages) (doc : PipeDoc)
    (ds : List PipeDoc) (P : List Int) (r : Int)
    (h1 : doc.record_id = some r) (h2 : r ∉ P) :
    (mainLoop st (doc :: ds) P).2 =
      (process_document st doc).2 ++
        ingestEvents (process_document st doc).1.1 (process_document st doc).1.2 ++
        [Ev.checkpointAdd r, Ev.checkpointSave (P ++ [r])] ++
        (mainLoop st ds (P ++ [r])).2 ∧
    (∀ (ds' : List PipeDoc) (P' : List Int),
      (mainLoop st ds' P').2.countP Ev.isCheckpointSave =
        (mainLoop st ds' P').2.countP Ev.isCheckpointAdd) := by
  constructor
  · simp [mainLoop, h1, h2]
  · intro ds' P'
    induction ds' generalizing P' with
    | nil => simp [mainLoop]
    | cons d ds'' ih =>
      cases hd : d.record_id with
      | none => simpa [mainLoop, hd] using ih P'
      | some rid =>
        by_cases hm : rid ∈ P'
        · simpa [mainLoop, hd, hm] using ih P'
        · simp only [mainLoop, hd, if_neg hm]
          rw [List.countP_append, List.countP_append, List.countP_append,
              List.countP_append, List.countP_append, List.countP_append]
          rw [process_document_countP_zero st d Ev.isCheckpointSave
                (by intro x; rfl) (by intro x; rfl) (by intro x; rfl) (by intro x; rfl),
              process_document_countP_zero st d Ev.isCheckpointAdd
                (by intro x; rfl) (by intro x; rfl) (by intro x; rfl) (by intro x; rfl),
              ingestEvents_countP_zero _ _ Ev.isCheckpointSave
                (by intro e; rfl) (by intro e; rfl),
              ingestEvents_countP_zero _ _ Ev.isCheckpointAdd
                (by intro e; rfl) (by intro e; rfl)]
          have hseg : ([Ev.checkpointAdd rid,
              Ev.checkpointSave (P' ++ [rid])].countP Ev.isCheckpointSave) = 1 ∧
              ([Ev.checkpointAdd rid,
              Ev.checkpointSave (P' ++ [rid])].countP Ev.isCheckpointAdd) = 1 := by
            constructor <;> rfl
          rw [hseg.1, hseg.2, ih (P' ++ [rid])]

/-- C5 witness: the structural part of C5_persist_before_checkpoint applied
to a concrete fresh document with the benign stages and an empty
checkpoint. -/
theorem C5_witness :
    (mainLoop stagesOk [⟨some 1, "apt29 spearphishing wave"⟩] []).2 =
      (process_document stagesOk ⟨some 1, "apt29 spearphishing wave"⟩).2 ++
        ingestEvents
          (process_document stagesOk ⟨some 1, "apt29 spearphishing wave"⟩).1.1
          (process_document stagesOk ⟨some 1, "apt29 spearphishing wave"⟩).1.2 ++
        [Ev.checkpointAdd 1, Ev.checkpointSave ([] ++ [1])] ++
        (mainLoop stagesOk [] ([] ++ [1])).2 :=
  (C5_persist_before_checkpoint stagesOk ⟨some 1, "apt29 spearphishing wave"⟩
    [] [] 1 rfl (by decide)).1

/-- C10: a document carrying a record_id r not yet in processed_ids is always
committed by its loop iteration — r ends up in the final processed_ids and a
checkpointSave containing r is flushed — no matter what the stages do and
even when the document text is empty (process_document returns ([], [])
without raising in both cases), so such documents are never reprocessed by a
later run. -/
theorem C10_failed_docs_checkpointed (st : Stages) (ds : List PipeDoc)
    (P : List Int) (r : Int)
    (hex : ∃ d ∈ ds, d.record_id = some r) (hnp : r ∉ P) :
    r ∈ (mainLoop st ds P).1 ∧
    ∃ s, Ev.checkpointSave s ∈ (mainLoop st ds P).2 ∧ r ∈ s := by
  induction ds generalizing P with
  | nil =>
    rcases hex with ⟨d, hd, _⟩
    simp at hd
  | cons doc ds ih =>
    cases hdoc : doc.record_id with
    | none =>
      have hex' : ∃ d ∈ ds, d.record_id = some r := by
        rcases hex with ⟨d, hd, hrid⟩
        rcases List.mem_cons.mp hd with rfl | hd'
        · rw [hdoc] at hrid; cases hrid
        · exact ⟨d, hd', hrid⟩
      simpa [mainLoop, hdoc] using ih P hex' hnp
    | some rid =>
      by_cases hm : rid ∈ P
      · have hex' : ∃ d ∈ ds, d.record_id = some r := by
          rcases hex with ⟨d, hd, hrid⟩
          rcases List.mem_cons.mp hd with rfl | hd'
          · rw [hdoc] at hrid
            injection hrid with he
            exact absurd (he ▸ hm) hnp
          · exact ⟨d, hd', hrid⟩
        simpa [mainLoop, hdoc, hm] using ih P hex' hnp
      · by_cases hrr : rid = r
        · subst hrr
          constructor
          · simp only [mainLoop, hdoc, if_neg hm]
            exact mainLoop_processed_mono st ds (P ++ [rid]) (by simp)
          · refine ⟨P ++ [rid], ?_, by simp⟩
            simp [mainLoop, hdoc, hm]
        · have hex' : ∃ d ∈ ds, d.record_id = some r := by
            rcases hex with ⟨d, hd, hrid⟩
            rcases List.mem_cons.mp hd with rfl | hd'
            · rw [hdoc] at hrid
              injection hrid with he
              exact absurd he hrr
            · exact ⟨d, hd', hrid⟩
          have hnp' : r ∉ P ++ [rid] := by
            intro hin
            rcases List.mem_append.mp hin with h | h
            · exact hnp h
            · simp at h
              exact hrr h.symm
          have h2 := ih (P ++ [rid]) hex' hnp'
          constructor
          · simpa [mainLoop, hdoc, hm] using h2.1
          · rcases h2.2 with ⟨s, hs, hrs⟩
            refine ⟨s, ?_, hrs⟩
            simp only [mainLoop, hdoc, if_neg hm]
            exact List.mem_append_right _ hs

/-- C10 witness: an empty-text document with record_id 7 under stages that
always raise, starting from an empty checkpoint, is committed: 7 is in the
final processed_ids and a checkpoint flush containing 7 happened. -/
theorem C10_witness :
    7 ∈ (mainLoop stagesDown [⟨some 7, ""⟩] []).1 ∧
    ∃ s, Ev.checkpointSave s ∈ (mainLoop stagesDown [⟨some 7, ""⟩] []).2 ∧ 7 ∈ s :=
  C10_failed_docs_checkpointed stagesDown [⟨some 7, ""⟩] [] 7
    ⟨⟨some 7, ""⟩, by decide, rfl⟩ (by decide)

/-- Whenever the document text does not strip to empty, process_document
invokes the NER stage interface and its trace records the call, whatever the
stages return. -/
theorem nerCall_mem_process_document (st : Stages) (doc : PipeDoc)
    (h : ¬ pyStrip doc.text = "") :
    Ev.nerCall doc.record_id ∈ (process_document st doc).2 := by
  unfold process_document
  rw [if_neg h]
  split
  · simp
  · split
    · simp
    · split <;> simp

/-- C1: the resumability scenario cannot hold on this code. Take the spec's
five reconstructed documents (record_ids 1..5, non-blank texts) with
checkpoint {1, 2, 3} loaded after the simulated crash. run_pipeline first
replaces the documents by a random sample of min(3, 5) = 3 of them; whatever
sample the randomness picks, at most two of its three distinct documents are
unprocessed, so it contains an already-checkpointed document — and the
timing-estimation pass invokes the NER stage interface on every sampled
document, so some record_id in the loaded checkpoint gets a stage-interface
invocation, contradicting that checkpointed documents are skipped without
any stage-interface invocation (and with only 3 of 5 documents surviving the
sampling, the two remaining documents cannot both be guaranteed to be
processed either). -/
theorem C1_checkpointed_doc_invoked (st : Stages) (sample : List PipeDoc)
    (hlen : sample.length = 3) (hnd : sample.Nodup) (hsub : sample ⊆ fiveDocs) :
    ∃ r ∈ ([1, 2, 3] : List Int),
      Ev.nerCall (some r) ∈ run_pipeline st sample [1, 2, 3] := by
  have hx : ∃ d ∈ sample, d ∈ firstThreeDocs := by
    by_contra hc
    push_neg at hc
    have hsub2 : sample ⊆ (fiveDocs.drop 3) := by
      intro d hd
      have h5 : d ∈ fiveDocs := hsub hd
      have h3 : d ∉ firstThreeDocs := hc d hd
      simp only [fiveDocs, firstThreeDocs, List.take, List.drop,
        List.mem_cons, List.not_mem_nil, or_false] at h5 h3 ⊢
      tauto
    have hle := (hnd.subperm hsub2).length_le
    rw [hlen] at hle
    simp [fiveDocs] at hle
  rcases hx with ⟨d, hd, hd3⟩
  have hr : ∃ r ∈ ([1, 2, 3] : List Int),
      d.record_id = some r ∧ ¬ pyStrip d.text = "" := by
    simp only [firstThreeDocs, fiveDocs, List.take, List.mem_cons,
      List.not_mem_nil, or_false] at hd3
    rcases hd3 with rfl | rfl | rfl
    · exact ⟨1, by decide, rfl, by decide⟩
    · exact ⟨2, by decide, rfl, by decide⟩
    · exact ⟨3, by decide, rfl, by decide⟩
  rcases hr with ⟨r, hrmem, hrid, htext⟩
  refine ⟨r, hrmem, ?_⟩
  have hne : ¬ sample.length = 0 := by rw [hlen]; decide
  unfold run_pipeline
  rw [if_neg hne]
  apply List.mem_append_left
  unfold estimationTrace
  have htake : sample.take (min 3 sample.length) = sample := by
    have hge : sample.length ≤ min 3 sample.length := by rw [hlen]; decide
    exact List.take_of_length_le hge
  rw [htake, List.mem_flatten]
  refine ⟨(process_document st d).2, List.mem_map_of_mem _ hd, ?_⟩
  rw [← hrid]
  exact nerCall_mem_process_document st d htext

/-- C1 witness: the sample that keeps document 3 and the two unprocessed
documents 4 and 5; document 3 is checkpointed yet its NER stage is
invoked. -/
theorem C1_witness :
    ∃ r ∈ ([1, 2, 3] : List Int),
      Ev.nerCall (some r) ∈ run_pipeline stagesOk
        [⟨some 3, "lazarus implant update"⟩,
         ⟨some 4, "cobalt strike beacon config"⟩,
         ⟨some 5, "mimikatz credential dump"⟩] [1, 2, 3] :=
  C1_checkpointed_doc_invoked stagesOk _ (by decide) (by decide)
    (by intro d hd; fin_cases hd <;> simp [fiveDocs])

/-- C9: _run_with_retry with its max_retries default of 3 makes at most 3
attempts; when every attempt fails with a TransientError the loop re-raises
the final error after exactly 3 attempts; a non-transient failure on the
first attempt is raised immediately after exactly 1 attempt; and an entity
with a falsy name or type is rejected by save_entity's ValueError guard
before the retry loop runs at all (zero query attempts). -/
theorem C9_bounded_retry :
    (∀ f : Nat → Except PErr Unit, (run_with_retry f 3).2 ≤ 3) ∧
    (∀ (f : Nat → Except PErr Unit) (m0 m1 m2 : String),
      f 0 = Except.error (PErr.transientError m0) →
      f 1 = Except.error (PErr.transientError m1) →
      f 2 = Except.error (PErr.transientError m2) →
      run_with_retry f 3 = (Except.error (PErr.transientError m2), 3)) ∧
    (∀ (f : Nat → Except PErr Unit) (e : PErr),
      f 0 = Except.error e → e.isTransient = false →
      run_with_retry f 3 = (Except.error e, 1)) ∧
    (∀ (e : ThreatEntity) (runQuery : Nat → Except PErr Unit),
      (e.name = "" ∨ e.type = "") →
      save_entity_attempts e runQuery =
        (Except.error (PErr.valueError "Entity must have a valid name and type"), 0)) := by
  refine ⟨?_, ?_, ?_, ?_⟩
  · intro f
    simp only [run_with_retry, retryGo]
    cases f 0 with
    | ok a => simp
    | error e0 =>
      by_cases h0 : e0.isTransient
      · simp only [h0, if_true, if_neg (by decide : ¬ (0 + 1 = 3))]
        cases f 1 with
        | ok a => simp
        | error e1 =>
          by_cases h1 : e1.isTransient
          · simp only [h1, if_true, if_neg (by decide : ¬ (1 + 1 = 3))]
            cases f 2 with
            | ok a => simp
            | error e2 =>
              by_cases h2 : e2.isTransient
              · simp [h2]
              · simp [h2]
          · simp [h1]
      · simp [h0]
  · intro f m0 m1 m2 h0 h1 h2
    simp [run_with_retry, retryGo, h0, h1, h2, PErr.isTransient]
  · intro f e h0 hnt
    simp [run_with_retry, retryGo, h0, hnt]
  · intro e runQuery hval
    unfold save_entity_attempts
    rcases hval with h | h <;> simp [h]

/-- C9 witness: a query failing three times with the same transient error is
raised after 3 attempts; a non-transient error is raised after 1 attempt
with no retry; an entity with an empty name is rejected with 0 attempts. -/
theorem C9_witness :
    run_with_retry
        (fun _ => (Except.error (PErr.transientError "deadlock") : Except PErr Unit)) 3 =
      (Except.error (PErr.transientError "deadlock"), 3) ∧
    run_with_retry
        (fun _ => (Except.error (PErr.error "syntax error") : Except PErr Unit)) 3 =
      (Except.error (PErr.error "syntax error"), 1) ∧
    save_entity_attempts { name := "", type := "tool" } (fun _ => Except.ok ()) =
      (Except.error (PErr.valueError "Entity must have a valid name and type"), 0) :=
  ⟨C9_bounded_retry.2.1 _ "deadlock" "deadlock" "deadlock" rfl rfl rfl,
   C9_bounded_retry.2.2.1 _ _ rfl rfl,
   C9_bounded_retry.2.2.2 _ _ (Or.inl rfl)⟩

/-- SET leaves the merge key (the node name) unchanged. -/
theorem setEntityProps_name (run_id : String) (e : ThreatEntity) (n : NodeRec) :
    (setEntityProps run_id e n).name = n.name := rfl

/-- Overwriting the same properties twice equals overwriting them once. -/
theorem setEntityProps_idem (run_id : String) (e : ThreatEntity) (n : NodeRec) :
    setEntityProps run_id e (setEntityProps run_id e n) = setEntityProps run_id e n := rfl

/-- The relationship SET leaves the edge key (src, dst, type) unchanged. -/
theorem setRelProps_key (run_id : String) (r : ThreatRelationship) (rr : RelRec) :
    (setRelProps run_id r rr).src = rr.src ∧ (setRelProps run_id r rr).dst = rr.dst ∧
    (setRelProps run_id r rr).rel_type = rr.rel_type := ⟨rfl, rfl, rfl⟩

/-- Overwriting the same relationship properties twice equals once. -/
theorem setRelProps_idem (run_id : String) (r : ThreatRelationship) (rr : RelRec) :
    setRelProps run_id r (setRelProps run_id r rr) = setRelProps run_id r rr := rfl

/-- Mapping a guarded update twice over a list equals mapping it once, when
the update preserves the guard key and is idempotent. -/
theorem map_updIf_idem {α : Type} (hit : α → Bool) (upd : α → α)
    (hkey : ∀ a, hit (upd a) = hit a) (hidem : ∀ a, upd (upd a) = upd a) (l : List α) :
    (l.map (fun a => if hit a then upd a else a)).map
        (fun a => if hit a then upd a else a) =
      l.map (fun a => if hit a then upd a else a) := by
  rw [List.map_map]
  apply List.map_congr_left
  intro a _
  by_cases h : hit a = true
  · simp [Function.comp, h, hkey, hidem]
  · simp [Function.comp, h]

/-- After an endpoint merge, the merged endpoint's index is found again by
the same lookup in the resulting node list. -/
theorem mergeEndpoint_findIdx (nodes : List NodeRec) (name etype : String) :
    (mergeEndpoint nodes name etype).1.findIdx?
      (fun n => decide (n.name = name ∧ n.entity_type = some etype)) =
      some (mergeEndpoint nodes name etype).2 := by
  unfold mergeEndpoint
  cases h : nodes.findIdx? (fun n => decide (n.name = name ∧ n.entity_type = some etype)) with
  | some i => simpa using h
  | none =>
    simp only
    rw [List.findIdx?_append, h]
    simp [List.findIdx?_cons]

/-- An endpoint merge whose lookup already succeeds changes nothing. -/
theorem mergeEndpoint_of_findIdx (nodes : List NodeRec) (name etype : String) (i : Nat)
    (h : nodes.findIdx? (fun n => decide (n.name = name ∧ n.entity_type = some etype)) =
      some i) : mergeEndpoint nodes name etype = (nodes, i) := by
  unfold mergeEndpoint
  rw [h]

/-- An endpoint merge only ever appends to the node list. -/
theorem mergeEndpoint_append (nodes : List NodeRec) (name etype : String) :
    ∃ ex, (mergeEndpoint nodes name etype).1 = nodes ++ ex := by
  unfold mergeEndpoint
  cases h : nodes.findIdx? (fun n => decide (n.name = name ∧ n.entity_type = some etype)) with
  | some i => exact ⟨[], by simp [h]⟩
  | none => exact ⟨[{ name := name, entity_type := some etype }], by simp [h]⟩

/-- A successful lookup survives appending nodes on the right. -/
theorem findIdx?_append_of_some {α : Type} (p : α → Bool) (l ex : List α) (i : Nat)
    (h : l.findIdx? p = some i) : (l ++ ex).findIdx? p = some i := by
  rw [List.findIdx?_append, h]
  rfl

/-- Re-merging the same endpoint into its own result changes nothing. -/
theorem mergeEndpoint_idem (ns : List NodeRec) (n t : String) :
    mergeEndpoint (mergeEndpoint ns n t).1 n t = mergeEndpoint ns n t := by
  rw [mergeEndpoint_of_findIdx _ _ _ _ (mergeEndpoint_findIdx ns n t)]

/-- Re-merging an endpoint after a later endpoint merge extended the node
list still finds the same index and changes nothing. -/
theorem mergeEndpoint_stable (ns : List NodeRec) (n1 t1 n2 t2 : String) :
    mergeEndpoint (mergeEndpoint (mergeEndpoint ns n1 t1).1 n2 t2).1 n1 t1 =
      ((mergeEndpoint (mergeEndpoint ns n1 t1).1 n2 t2).1,
        (mergeEndpoint ns n1 t1).2) := by
  obtain ⟨ex, hex⟩ := mergeEndpoint_append (mergeEndpoint ns n1 t1).1 n2 t2
  apply mergeEndpoint_of_findIdx
  rw [hex]
  exact findIdx?_append_of_some _ _ _ _ (mergeEndpoint_findIdx ns n1 t1)

/-- Applying the same entity upsert twice yields the same store as applying
it once: the second MERGE binds the nodes the first one wrote and the second
SET overwrites the same values. -/
theorem applyEntityMerge_idem (run_id : String) (g : GraphState) (e : ThreatEntity) :
    applyEntityMerge run_id (applyEntityMerge run_id g e) e =
      applyEntityMerge run_id g e := by
  by_cases h : g.nodes.any (fun n => decide (n.name = e.name)) = true
  · have hinner : applyEntityMerge run_id g e =
        { g with nodes := (g.nodes.map
          (fun n => if n.name = e.name then setEntityProps run_id e n else n)) } := by
      unfold applyEntityMerge
      rw [if_pos h]
    rw [hinner]
    have hany : ((g.nodes.map
        (fun n => if n.name = e.name then setEntityProps run_id e n else n)).any
          (fun n => decide (n.name = e.name))) = true := by
      rcases List.any_eq_true.mp h with ⟨n, hn, hpn⟩
      have hname : n.name = e.name := of_decide_eq_true hpn
      refine List.any_eq_true.mpr ⟨setEntityProps run_id e n, ?_, ?_⟩
      · exact List.mem_map.mpr ⟨n, hn, by rw [if_pos hname]⟩
      · exact decide_eq_true (by rw [setEntityProps_name]; exact hname)
    unfold applyEntityMerge
    rw [if_pos hany]
    congr 1
    rw [List.map_map]
    apply List.map_congr_left
    intro n _
    by_cases hn : n.name = e.name
    · simp only [Function.comp, if_pos hn, setEntityProps_name, setEntityProps_idem]
    · simp only [Function.comp, if_neg hn]
  · have hinner : applyEntityMerge run_id g e =
        { g with nodes := g.nodes ++ [setEntityProps run_id e { name := e.name }] } := by
      unfold applyEntityMerge
      rw [if_neg h]
    rw [hinner]
    have hany : ((g.nodes ++ [setEntityProps run_id e { name := e.name }]).any
        (fun n => decide (n.name = e.name))) = true := by
      refine List.any_eq_true.mpr ⟨setEntityProps run_id e { name := e.name }, by simp, ?_⟩
      exact decide_eq_true rfl
    unfold applyEntityMerge
    rw [if_pos hany]
    congr 1
    rw [List.map_append]
    have hall : ∀ n ∈ g.nodes, ¬ (n.name = e.name) := by
      intro n hn heq
      exact h (List.any_eq_true.mpr ⟨n, hn, decide_eq_true heq⟩)
    have hmap1 : (g.nodes.map
        (fun n => if n.name = e.name then setEntityProps run_id e n else n)) = g.nodes := by
      rw [List.map_congr_left (fun n hn => if_neg (hall n hn))]
      exact List.map_id g.nodes
    rw [hmap1]
    congr 1
    rw [List.map_cons, List.map_nil, if_pos (setEntityProps_name run_id e { name := e.name })]
    rw [setEntityProps_idem]

/-- Applying the same relationship upsert twice yields the same store as
applying it once: both endpoint merges re-bind the same node indices and the
edge merge re-binds the edge the first application wrote. -/
theorem applyRelationshipMerge_idem (run_id : String) (g : GraphState)
    (r : ThreatRelationship) :
    applyRelationshipMerge run_id (applyRelationshipMerge run_id g r) r =
      applyRelationshipMerge run_id g r := by
  simp only [applyRelationshipMerge]
  rw [mergeEndpoint_stable g.nodes r.source_name r.source_type
      r.target_name r.target_type]
  simp only [Prod.fst, Prod.snd]
  rw [mergeEndpoint_idem]
  set s := (mergeEndpoint g.nodes r.source_name r.source_type).2 with hs
  set m2 := mergeEndpoint (mergeEndpoint g.nodes r.source_name r.source_type).1
    r.target_name r.target_type with hm2
  set hit := fun rr : RelRec =>
    decide (rr.src = s ∧ rr.dst = m2.2 ∧ rr.rel_type = r.relationship_type) with hhit
  have hitSet : ∀ rr, hit (setRelProps run_id r rr) = hit rr := by
    intro rr
    rw [hhit]
    simp only [setRelProps]
  have hitNew : hit (setRelProps run_id r
      { src := s, dst := m2.2, rel_type := r.relationship_type }) = true := by
    rw [hitSet]
    exact decide_eq_true ⟨rfl, rfl, rfl⟩
  by_cases hc : g.rels.any hit = true
  · rw [if_pos hc]
    have hany2 : ((g.rels.map (fun rr => if hit rr then setRelProps run_id r rr else rr)).any
        hit) = true := by
      rcases List.any_eq_true.mp hc with ⟨rr, hrr, hhitrr⟩
      refine List.any_eq_true.mpr ⟨setRelProps run_id r rr, ?_, by rw [hitSet]; exact hhitrr⟩
      exact List.mem_map.mpr ⟨rr, hrr, by rw [if_pos hhitrr]⟩
    rw [if_pos hany2]
    congr 1
    exact map_updIf_idem hit (setRelProps run_id r) hitSet
      (setRelProps_idem run_id r) g.rels
  · rw [if_neg hc]
    have hany2 : ((g.rels ++ [setRelProps run_id r
        { src := s, dst := m2.2, rel_type := r.relationship_type }]).any hit) = true := by
      exact List.any_eq_true.mpr ⟨_, by simp, hitNew⟩
    rw [if_pos hany2]
    congr 1
    rw [List.map_append]
    have hall : ∀ rr ∈ g.rels, ¬ (hit rr = true) := by
      intro rr hrr hh
      exact hc (List.any_eq_true.mpr ⟨rr, hrr, hh⟩)
    have hmap1 : (g.rels.map (fun rr => if hit rr then setRelProps run_id r rr else rr)) =
        g.rels := by
      rw [List.map_congr_left (fun rr hrr => if_neg (hall rr hrr))]
      exact List.map_id g.rels
    rw [hmap1]
    congr 1
    rw [List.map_cons, List.map_nil, if_pos hitNew, setRelProps_idem]

/-- C8 amended: the upsert operations are idempotent by their actual merge
keys — the name alone for entities (type is an overwritten field), and
source {name, entity_type}, target {name, entity_type} plus relationship
type for edges: applying the same upsert twice yields exactly the stored
state of applying it once, and upserting the same entity twice into an empty
store leaves a single record. -/
theorem C8_amended :
    (∀ (run_id : String) (g : GraphState) (e : ThreatEntity),
      applyEntityMerge run_id (applyEntityMerge run_id g e) e =
        applyEntityMerge run_id g e) ∧
    (∀ (run_id : String) (g : GraphState) (r : ThreatRelationship),
      applyRelationshipMerge run_id (applyRelationshipMerge run_id g r) r =
        applyRelationshipMerge run_id g r) ∧
    (∀ (run_id : String) (e : ThreatEntity),
      (applyEntityMerge run_id (applyEntityMerge run_id emptyStore e) e).nodes.length
        = 1) := by
  refine ⟨applyEntityMerge_idem, applyRelationshipMerge_idem, ?_⟩
  intro run_id e
  rw [applyEntityMerge_idem]
  have h : applyEntityMerge run_id emptyStore e =
      { emptyStore with nodes := [setEntityProps run_id e { name := e.name }] } := by
    unfold applyEntityMerge
    rw [if_neg (by simp [emptyStore])]
    rfl
  rw [h]
  rfl

/-- Membership in a stable insertion. -/
theorem mem_insertStable {α : Type} (key : α → Int) (x a : α) (l : List α) :
    a ∈ insertStable key x l ↔ a = x ∨ a ∈ l := by
  induction l with
  | nil => simp [insertStable]
  | cons y ys ih =>
    unfold insertStable
    by_cases h : key y ≤ key x
    · rw [if_pos h]
      simp only [List.mem_cons, ih]
      tauto
    · rw [if_neg h]
      simp only [List.mem_cons]

/-- Stable insertion preserves sortedness by the key. -/
theorem insertStable_sorted {α : Type} (key : α → Int) (x : α) (l : List α)
    (h : l.Sorted (fun a b => key a ≤ key b)) :
    (insertStable key x l).Sorted (fun a b => key a ≤ key b) := by
  induction l with
  | nil => simp [insertStable]
  | cons y ys ih =>
    rw [List.sorted_cons] at h
    unfold insertStable
    by_cases hy : key y ≤ key x
    · rw [if_pos hy]
      rw [List.sorted_cons]
      constructor
      · intro b hb
        rcases (mem_insertStable key x b ys).mp hb with rfl | hb'
        · exact hy
        · exact h.1 b hb'
      · exact ih h.2
    · rw [if_neg hy]
      rw [List.sorted_cons]
      constructor
      · intro b hb
        rcases List.mem_cons.mp hb with rfl | hb'
        · exact le_of_lt (lt_of_not_le hy)
        · exact le_trans (le_of_lt (lt_of_not_le hy)) (h.1 b hb')
      · rw [List.sorted_cons]
        exact h

/-- Inserting into a sorted list puts x after the existing elements of its
key class: the key-class filter gains x at its end. -/
theorem filter_insertStable {α : Type} (key : α → Int) (x : α) (l : List α) (p : Int)
    (h : l.Sorted (fun a b => key a ≤ key b)) :
    (insertStable key x l).filter (fun a => decide (key a = p)) =
      if key x = p then (l.filter (fun a => decide (key a = p))) ++ [x]
      else l.filter (fun a => decide (key a = p)) := by
  induction l with
  | nil =>
    unfold insertStable
    by_cases hx : key x = p <;> simp [hx]
  | cons y ys ih =>
    rw [List.sorted_cons] at h
    unfold insertStable
    by_cases hy : key y ≤ key x
    · rw [if_pos hy]
      by_cases hyp : key y = p
      · rw [List.filter_cons_of_pos (by exact decide_eq_true hyp),
            List.filter_cons_of_pos (by exact decide_eq_true hyp), ih h.2]
        by_cases hx : key x = p <;> simp [hx]
      · rw [List.filter_cons_of_neg (by simp [hyp]),
            List.filter_cons_of_neg (by simp [hyp])]
        exact ih h.2
    · rw [if_neg hy]
      have hlt : key x < key y := lt_of_not_le hy
      by_cases hx : key x = p
      · rw [if_pos hx]
        rw [List.filter_cons_of_pos (by exact decide_eq_true hx)]
        have hnil : (y :: ys).filter (fun a => decide (key a = p)) = [] := by
          rw [List.filter_eq_nil_iff]
          intro a ha
          have hk : key y ≤ key a := by
            rcases List.mem_cons.mp ha with rfl | ha'
            · exact le_refl _
            · exact h.1 a ha'
          have : key a ≠ p := by
            intro hp
            rw [← hx] at hp
            exact absurd (hp ▸ hk) (not_le_of_lt hlt)
          simp [this]
        rw [hnil]
        rfl
      · rw [if_neg hx]
        rw [List.filter_cons_of_neg (by simp [hx])]

/-- The insertion sort of the reconstructor is sorted ascending by key. -/
theorem stableSortBy_sorted {α : Type} (key : α → Int) (l : List α) :
    (stableSortBy key l).Sorted (fun a b => key a ≤ key b) := by
  have haux : ∀ (l : List α) (acc : List α),
      acc.Sorted (fun a b => key a ≤ key b) →
      (l.foldl (fun acc x => insertStable key x acc) acc).Sorted
        (fun a b => key a ≤ key b) := by
    intro l
    induction l with
    | nil => intro acc h; exact h
    | cons x xs ih =>
      intro acc h
      exact ih (insertStable key x acc) (insertStable_sorted key x acc h)
  exact haux l [] (by simp)

/-- The insertion sort is stable: each key class keeps its input order. -/
theorem filter_stableSortBy {α : Type} (key : α → Int) (l : List α) (p : Int) :
    (stableSortBy key l).filter (fun a => decide (key a = p)) =
      l.filter (fun a => decide (key a = p)) := by
  have haux : ∀ (l : List α) (acc : List α),
      acc.Sorted (fun a b => key a ≤ key b) →
      (l.foldl (fun acc x => insertStable key x acc) acc).filter
          (fun a => decide (key a = p)) =
        acc.filter (fun a => decide (key a = p)) ++
          l.filter (fun a => decide (key a = p)) := by
    intro l
    induction l with
    | nil => intro acc _; simp
    | cons x xs ih =>
      intro acc h
      rw [List.foldl_cons, ih (insertStable key x acc) (insertStable_sorted key x acc h)]
      rw [filter_insertStable key x acc p h]
      by_cases hx : key x = p
      · rw [if_pos hx, List.filter_cons_of_pos (by exact decide_eq_true hx),
            List.append_assoc]
        rfl
      · rw [if_neg hx, List.filter_cons_of_neg (by simp [hx])]
  simpa using haux l [] (by simp)

/-- Two lists sorted by the same key and with identical key-class filters are
equal: a stable sort's output is unique. -/
theorem sorted_eq_of_filter_eq {α : Type} (key : α → Int) :
    ∀ (s1 s2 : List α), s1.Sorted (fun a b => key a ≤ key b) →
      s2.Sorted (fun a b => key a ≤ key b) →
      (∀ p, s1.filter (fun a => decide (key a = p)) =
        s2.filter (fun a => decide (key a = p))) →
      s1 = s2 := by
  intro s1
  induction s1 with
  | nil =>
    intro s2 _ _ hf
    cases s2 with
    | nil => rfl
    | cons b t2 =>
      have := hf (key b)
      rw [List.filter_cons_of_pos (by exact decide_eq_true rfl)] at this
      simp at this
  | cons a t1 ih =>
    intro s2 h1 h2 hf
    cases s2 with
    | nil =>
      have := hf (key a)
      rw [List.filter_cons_of_pos (by exact decide_eq_true rfl)] at this
      simp at this
    | cons b t2 =>
      rw [List.sorted_cons] at h1 h2
      have hab : key a = key b := by
        have hmem : key b ≤ key a := by
          by_cases hba : key b = key a
          · exact le_of_eq hba
          · have h1f := hf (key a)
            rw [List.filter_cons_of_pos (by exact decide_eq_true rfl),
                List.filter_cons_of_neg (by simp [hba])] at h1f
            have hmemf : a ∈ t2.filter (fun x => decide (key x = key a)) := by
              rw [← h1f]; simp
            exact h2.1 a (List.mem_of_mem_filter hmemf)
        have hmem2 : key a ≤ key b := by
          by_cases hab' : key a = key b
          · exact le_of_eq hab'
          · have h2f := hf (key b)
            rw [List.filter_cons_of_neg (by simp [hab']),
                List.filter_cons_of_pos (by exact decide_eq_true rfl)] at h2f
            have hmemf : b ∈ t1.filter (fun x => decide (key x = key b)) := by
              rw [h2f]; simp
            exact h1.1 b (List.mem_of_mem_filter hmemf)
        exact le_antisymm hmem2 hmem
      have hab2 : a = b := by
        have h1f := hf (key a)
        rw [List.filter_cons_of_pos (by exact decide_eq_true rfl),
            List.filter_cons_of_pos (by exact decide_eq_true hab.symm)] at h1f
        exact (List.cons.injEq _ _ _ _ ▸ h1f).1
      subst hab2
      have htails : ∀ p, t1.filter (fun x => decide (key x = p)) =
          t2.filter (fun x => decide (key x = p)) := by
        intro p
        have hp := hf p
        by_cases hap : key a = p
        · rw [List.filter_cons_of_pos (by exact decide_eq_true hap),
              List.filter_cons_of_pos (by exact decide_eq_true hap)] at hp
          exact (List.cons.injEq _ _ _ _ ▸ hp).2
        · rw [List.filter_cons_of_neg (by simp [hap]),
              List.filter_cons_of_neg (by simp [hap])] at hp
          exact hp
      rw [ih t2 h1.2 h2.2 htails]

/-- Lists whose key classes agree have the same stable sort. -/
theorem stableSortBy_congr {α : Type} (key : α → Int) (l1 l2 : List α)
    (h : ∀ p, l1.filter (fun a => decide (key a = p)) =
      l2.filter (fun a => decide (key a = p))) :
    stableSortBy key l1 = stableSortBy key l2 := by
  apply sorted_eq_of_filter_eq key _ _ (stableSortBy_sorted key l1)
    (stableSortBy_sorted key l2)
  intro p
  rw [filter_stableSortBy, filter_stableSortBy]
  exact h p

/-- Membership in the first-occurrence key fold. -/
theorem mem_foldl_insertFirst (l : List Int) :
    ∀ (acc : List Int) (r : Int), r ∈ l.foldl insertFirst acc ↔ r ∈ acc ∨ r ∈ l := by
  induction l with
  | nil => intro acc r; simp
  | cons x xs ih =>
    intro acc r
    rw [List.foldl_cons, ih]
    unfold insertFirst
    by_cases h : x ∈ acc
    · rw [if_pos h]
      constructor
      · rintro (ha | hx)
        · exact Or.inl ha
        · exact Or.inr (List.mem_cons_of_mem _ hx)
      · rintro (ha | hx)
        · exact Or.inl ha
        · rcases List.mem_cons.mp hx with rfl | hx'
          · exact Or.inl h
          · exact Or.inr hx'
    · rw [if_neg h]
      simp only [List.mem_append, List.mem_singleton, List.mem_cons]
      tauto

/-- The first-occurrence key fold preserves freedom from duplicates. -/
theorem nodup_foldl_insertFirst (l : List Int) :
    ∀ (acc : List Int), acc.Nodup → (l.foldl insertFirst acc).Nodup := by
  induction l with
  | nil => intro acc h; exact h
  | cons x xs ih =>
    intro acc h
    rw [List.foldl_cons]
    apply ih
    unfold insertFirst
    by_cases hx : x ∈ acc
    · rw [if_pos hx]; exact h
    · rw [if_neg hx]
      simpa [List.nodup_append] using ⟨h, hx⟩

/-- A record id occurs among the keys iff some chunk carries it. -/
theorem mem_chunkKeys (v : List Chunk) (r : Int) :
    r ∈ chunkKeys v ↔ ∃ c ∈ v, c.record_id = r := by
  unfold chunkKeys
  rw [mem_foldl_insertFirst]
  simp [List.mem_map, eq_comm]

/-- The key list of records_map is duplicate-free. -/
theorem nodup_chunkKeys (v : List Chunk) : (chunkKeys v).Nodup :=
  nodup_foldl_insertFirst _ [] (by simp)

/-- Scanning one more chunk extends the key list by at most its record id. -/
theorem chunkKeys_append (v : List Chunk) (c : Chunk) :
    chunkKeys (v ++ [c]) = insertFirst (chunkKeys v) c.record_id := by
  unfold chunkKeys
  rw [List.map_append, List.foldl_append]
  rfl

/-- The text_chunks of an assembled entry are the (position, text) pairs of
its chunks in read order (also for the empty list). -/
theorem entryFor_text_chunks (l : List Chunk) :
    (entryFor l).text_chunks = l.map (fun c => (c.chunk_index, c.text)) := by
  cases l with
  | nil => rfl
  | cons c cs => rfl

/-- Appending a chunk to a nonempty record appends its pair to the entry. -/
theorem entryFor_append (l : List Chunk) (c : Chunk) (h : l ≠ []) :
    entryFor (l ++ [c]) =
      { entryFor l with text_chunks :=
          (entryFor l).text_chunks ++ [(c.chunk_index, c.text)] } := by
  cases l with
  | nil => exact absurd rfl h
  | cons c0 cs => simp [entryFor]

/-- updateEntry on an association list in keyed map form: an existing key has
the chunk appended to its entry, a new key is appended at the end. -/
theorem updateEntry_mapform (c : Chunk) (ks : List Int) (g : Int → RecEntry)
    (hnd : ks.Nodup) :
    updateEntry c (ks.map (fun k => (k, g k))) =
      (if c.record_id ∈ ks then
        ks.map (fun k => (k, if k = c.record_id then
          { g k with text_chunks := (g k).text_chunks ++ [(c.chunk_index, c.text)] }
          else g k))
      else ks.map (fun k => (k, g k)) ++ [(c.record_id, entryOfChunk c)]) := by
  induction ks with
  | nil => simp [updateEntry]
  | cons k0 ks ih =>
    rw [List.nodup_cons] at hnd
    by_cases hk : k0 = c.record_id
    · rw [List.map_cons]
      unfold updateEntry
      rw [if_pos hk, if_pos (by rw [← hk]; exact List.mem_cons_self k0 ks),
          List.map_cons, if_pos hk]
      congr 1
      apply List.map_congr_left
      intro k hk2
      have hne : ¬ (k = c.record_id) := by
        intro h
        rw [← hk] at h
        exact hnd.1 (h ▸ hk2)
      rw [if_neg hne]
    · rw [List.map_cons]
      unfold updateEntry
      rw [if_neg hk, ih hnd.2]
      by_cases hmem : c.record_id ∈ ks
      · rw [if_pos hmem, if_pos (List.mem_cons_of_mem _ hmem), List.map_cons,
            if_neg hk]
      · have hnotin : c.record_id ∉ k0 :: ks := by
          intro h
          rcases List.mem_cons.mp h with h' | h'
          · exact hk h'.symm
          · exact hmem h'
        rw [if_neg hmem, if_neg hnotin]
        simp

/-- buildRecordsMap in closed form: one key per record id in first-seen order
of the retained chunks, each entry assembled from its record's retained
chunks in read order. -/
theorem buildRecordsMap_char (chunks : List Chunk) :
    buildRecordsMap chunks =
      (chunkKeys (chunks.filter chunkValid)).map (fun k =>
        (k, entryFor ((chunks.filter chunkValid).filter
          (fun c => decide (c.record_id = k))))) := by
  unfold buildRecordsMap
  generalize (chunks.filter chunkValid) = v
  induction v using List.reverseRecOn with
  | nil => rfl
  | append_singleton v c ih =>
    rw [List.foldl_append, List.foldl_cons, List.foldl_nil, ih]
    rw [updateEntry_mapform c (chunkKeys v) _ (nodup_chunkKeys v), chunkKeys_append]
    by_cases hmem : c.record_id ∈ chunkKeys v
    · rw [if_pos hmem]
      unfold insertFirst
      rw [if_pos hmem]
      apply List.map_congr_left
      intro k hk
      by_cases hkr : k = c.record_id
      · rw [if_pos hkr, List.filter_append]
        have hc1 : ([c].filter (fun c' => decide (c'.record_id = k))) = [c] := by
          simp [hkr.symm]
        rw [hc1]
        have hne : (v.filter (fun c' => decide (c'.record_id = k))) ≠ [] := by
          rcases (mem_chunkKeys v c.record_id).mp hmem with ⟨c', hc', hr⟩
          intro hnil
          rw [List.filter_eq_nil_iff] at hnil
          exact hnil c' hc' (decide_eq_true (hr.trans hkr.symm))
        rw [entryFor_append _ c hne]
      · rw [if_neg hkr, List.filter_append]
        have hc0 : ([c].filter (fun c' => decide (c'.record_id = k))) = [] := by
          have hne : ¬ (c.record_id = k) := fun h => hkr h.symm
          simp [hne]
        rw [hc0, List.append_nil]
    · rw [if_neg hmem]
      unfold insertFirst
      rw [if_neg hmem, List.map_append]
      congr 1
      · apply List.map_congr_left
        intro k hk
        rw [List.filter_append]
        have hc0 : ([c].filter (fun c' => decide (c'.record_id = k))) = [] := by
          have hne : ¬ (c.record_id = k) := fun h => hmem (h ▸ hk)
          simp [hne]
        rw [hc0, List.append_nil]
      · have hnil : (v.filter (fun c' => decide (c'.record_id = c.record_id))) = [] := by
          rw [List.filter_eq_nil_iff]
          intro a ha hd
          exact hmem ((mem_chunkKeys v c.record_id).mpr ⟨a, ha, of_decide_eq_true hd⟩)
        simp only [List.map_cons, List.map_nil, List.filter_append, hnil,
          List.nil_append]
        have hc1 : ([c].filter (fun c' => decide (c'.record_id = c.record_id))) = [c] := by
          simp
        rw [hc1]
        rfl

/-- C7 amended: reconstruction is invariant under rescanning the archive in a
different order provided (i) chunks sharing one (record_id, position) key
keep their relative read order — they are concatenated in read order by the
stable sort, neither dropped nor reordered — and (ii) the first-occurrence
order of the retained record ids is unchanged (the output document order
follows it, so the claim's invariance fails without this extra condition:
C7_counterexample). Under these conditions both scans yield the same
record ids with identical texts in identical order. -/
theorem C7_amended (l1 l2 : List Chunk)
    (h1 : ∀ c ∈ l1, sameKeyGroup c l1 = sameKeyGroup c l2)
    (h2 : ∀ c ∈ l2, sameKeyGroup c l1 = sameKeyGroup c l2)
    (hkeys : chunkKeys (l1.filter chunkValid) = chunkKeys (l2.filter chunkValid)) :
    (load_and_reconstruct l1).map (fun d => (d.record_id, d.text)) =
      (load_and_reconstruct l2).map (fun d => (d.record_id, d.text)) := by
  have hkey : ∀ (r p : Int),
      l1.filter (fun c => decide (c.record_id = r ∧ c.chunk_index = p)) =
      l2.filter (fun c => decide (c.record_id = r ∧ c.chunk_index = p)) := by
    intro r p
    by_cases he1 : ∃ c ∈ l1, c.record_id = r ∧ c.chunk_index = p
    · rcases he1 with ⟨c, hc, hcr, hcp⟩
      have hg := h1 c hc
      unfold sameKeyGroup at hg
      rw [hcr, hcp] at hg
      exact hg
    · push_neg at he1
      have hnil1 : l1.filter
          (fun c => decide (c.record_id = r ∧ c.chunk_index = p)) = [] := by
        rw [List.filter_eq_nil_iff]
        intro a ha hd
        rcases of_decide_eq_true hd with ⟨ha1, ha2⟩
        exact he1 a ha ha1 ha2
      rw [hnil1]
      by_cases he2 : ∃ c ∈ l2, c.record_id = r ∧ c.chunk_index = p
      · rcases he2 with ⟨c, hc, hcr, hcp⟩
        have hg := h2 c hc
        unfold sameKeyGroup at hg
        rw [hcr, hcp] at hg
        rw [hnil1] at hg
        exact hg
      · push_neg at he2
        symm
        rw [List.filter_eq_nil_iff]
        intro a ha hd
        rcases of_decide_eq_true hd with ⟨ha1, ha2⟩
        exact he2 a ha ha1 ha2
  unfold load_and_reconstruct
  rw [buildRecordsMap_char l1, buildRecordsMap_char l2]
  simp only [List.map_map]
  rw [hkeys]
  apply List.map_congr_left
  intro k _
  simp only [Function.comp, reconstructEntry, entryFor_text_chunks]
  have hsort : stableSortBy (fun q : Int × String => q.1)
      (((l1.filter chunkValid).filter (fun c => decide (c.record_id = k))).map
        (fun c => (c.chunk_index, c.text))) =
    stableSortBy (fun q : Int × String => q.1)
      (((l2.filter chunkValid).filter (fun c => decide (c.record_id = k))).map
        (fun c => (c.chunk_index, c.text))) := by
    apply stableSortBy_congr
    intro p
    rw [List.filter_map, List.filter_map]
    have hcomp : ((fun q : Int × String => decide (q.1 = p)) ∘
        (fun c : Chunk => (c.chunk_index, c.text))) =
        (fun c : Chunk => decide (c.chunk_index = p)) := rfl
    rw [hcomp]
    have hchain : ∀ (l : List Chunk),
        (((l.filter chunkValid).filter (fun c => decide (c.record_id = k))).filter
            (fun c => decide (c.chunk_index = p))) =
          ((l.filter (fun c => decide (c.record_id = k ∧ c.chunk_index = p))).filter
            chunkValid) := by
      intro l
      rw [List.filter_filter, List.filter_filter, List.filter_filter]
      apply List.filter_congr
      intro c _
      by_cases hr : c.record_id = k <;> by_cases hp : c.chunk_index = p <;>
        simp [hr, hp]
    rw [hchain l1, hchain l2, hkey k p]
  rw [hsort]

/-- C7 counterexample: swapping one valid chunk of document 1 with one valid
chunk of document 2 is a permutation that trivially preserves the relative
read order of chunks sharing a (record_id, position) key — every such group
is a singleton — yet reconstruction emits the two documents in the opposite
order (output order follows first occurrence of each record_id), so the
outputs do not have identical ordering as the claim states. -/
theorem C7_counterexample :
    ([chunkDoc2, chunkDoc1] : List Chunk).Perm [chunkDoc1, chunkDoc2] ∧
    (∀ c ∈ ([chunkDoc1, chunkDoc2] : List Chunk),
      sameKeyGroup c [chunkDoc1, chunkDoc2] = sameKeyGroup c [chunkDoc2, chunkDoc1]) ∧
    (∀ c ∈ ([chunkDoc2, chunkDoc1] : List Chunk),
      sameKeyGroup c [chunkDoc1, chunkDoc2] = sameKeyGroup c [chunkDoc2, chunkDoc1]) ∧
    (load_and_reconstruct [chunkDoc1, chunkDoc2]).map (fun d => (d.record_id, d.text))
      ≠ (load_and_reconstruct [chunkDoc2, chunkDoc1]).map
          (fun d => (d.record_id, d.text)) :=
  ⟨List.Perm.swap chunkDoc1 chunkDoc2 [], by decide, by decide, by decide⟩

/-- C7 witness: reordering the chunks of one document while keeping the two
position-0 chunks in their relative read order yields the same reconstructed
output; the equal-position chunks are concatenated in read order in both
scans. -/
theorem C7_amended_witness :
    (load_and_reconstruct samePosA).map (fun d => (d.record_id, d.text)) =
      (load_and_reconstruct samePosB).map (fun d => (d.record_id, d.text)) :=
  C7_amended samePosA samePosB (by decide) (by decide) (by decide)
